import Mathlib

/-
Verification development for the liked-to-playlists-sync repository.

The source is TypeScript.  We give a shallow embedding:

* JavaScript `Map` objects and plain records used as dictionaries are
  modelled as insertion-ordered association lists (`List (String × α)`);
  `Map.get` is the first match, `Map.set` replaces in place or appends.
* JavaScript `Set` objects are modelled as duplicate-free lists in
  insertion order (`setInsert` appends only when the element is new).
* ISO-8601 UTC timestamp strings compare lexicographically exactly as the
  instants they denote compare chronologically, so timestamps are
  modelled as natural numbers (milliseconds since the epoch).
* Fallible operations (network calls, the state file read) are modelled
  with `Except String`.
* The I/O a run performs is recorded as an explicit trace of `Event`s.
-/

set_option autoImplicit false

namespace LikedSync

universe u

variable {α : Type u}

/-- Timestamps: ISO-8601 UTC strings in the source, modelled as
milliseconds since the epoch. -/
abbrev Ts := Nat

/-- An artist reference as it appears on a track object (`track.artists`
entries carry an `id` field). -/
structure ArtistRef where
  id : String
deriving DecidableEq, Repr

/-- A track object: `id`, `name` and the list of artist references. -/
structure Track where
  id : String
  name : String
  artists : List ArtistRef
deriving DecidableEq, Repr

/-- A full artist object returned by `getSeveralArtists`: its `id` and its
list of genre tags. -/
structure Artist where
  id : String
  genres : List String
deriving DecidableEq, Repr

/-- One item of the saved-tracks stream (`iterateSavedTracks`):
`added_at` is the liked-at timestamp. -/
structure SavedItem where
  added_at : Ts
  track : Track
deriving DecidableEq, Repr

/-- `GenreProfile = Map<string, number>` from `genreRouter.ts`: an
insertion-ordered association list with unique keys. -/
abbrev GenreProfile := List (String × Nat)

/-- First-match lookup, the model of `Map.get` and of indexing a plain
record by key. -/
def assocGet (m : List (String × α)) (k : String) : Option α :=
  (m.find? (fun p => p.1 == k)).map (fun p => p.2)

/-- `Map.set` and record assignment: replace the first binding of the key
in place, or append a fresh binding at the end. -/
def assocSet : List (String × α) → String → α → List (String × α)
  | [], k, v => [(k, v)]
  | p :: rest, k, v =>
    if p.1 == k then (k, v) :: rest else p :: assocSet rest k v

/-- The increment `counts.set(g, (counts.get(g) ?? 0) + 1)` from
`buildPlaylistGenreProfile`. -/
def bump (m : GenreProfile) (g : String) : GenreProfile :=
  assocSet m g ((assocGet m g).getD 0 + 1)

/-- `Set.add`: append the element only when it is new (JS sets keep
insertion order). -/
def setInsert (acc : List String) (x : String) : List String :=
  if x ∈ acc then acc else acc ++ [x]

/-- Recursion worker for `chunksOf`. -/
def chunksOfAux (n : Nat) : Nat → List α → List (List α)
  | 0, _ => []
  | _, [] => []
  | fuel + 1, x :: xs => ((x :: xs).take (n + 1)) :: chunksOfAux n fuel (xs.drop n)

/-- Splitting a list into consecutive chunks of size `n + 1` (fuel keeps
the recursion structural; `l.length` fuel always suffices). -/
def chunksOf (n : Nat) (l : List α) : List (List α) :=
  chunksOfAux n l.length l

/-- `scoreTrackAgainstProfile` from `genreRouter.ts`: running sum of
`profile.get(g) ?? 0` over the track genres. -/
def scoreTrackAgainstProfile (trackGenres : List String) (profile : GenreProfile) : Nat :=
  trackGenres.foldl (fun s g => s + (assocGet profile g).getD 0) 0

/-- One iteration of the loop in `pickBestPlaylist`: update the best id
and best score when the current score is strictly greater. -/
def pickStep (trackGenres : List String) (best : Option String × Int)
    (p : String × GenreProfile) : Option String × Int :=
  let s : Int := scoreTrackAgainstProfile trackGenres p.2
  if s > best.2 then (some p.1, s) else best

/-- `pickBestPlaylist` from `genreRouter.ts`: iterate over the profile
entries in order, starting from `bestId = null`, `bestScore = -1`. -/
def pickBestPlaylist (trackGenres : List String)
    (profiles : List (String × GenreProfile)) : Option String :=
  (profiles.foldl (pickStep trackGenres) (none, -1)).1

/-- The maximum score any profile entry attains (0 for an empty list);
used only to state the routing specification. -/
def maxScore (gs : List String) (ps : List (String × GenreProfile)) : Nat :=
  (ps.map (fun p => scoreTrackAgainstProfile gs p.2)).foldr max 0

/-- Routing as the specification words it: among the entries tied for the
maximum score, the first one in iteration order wins. -/
def pickBestPlaylistSpec (gs : List String)
    (ps : List (String × GenreProfile)) : Option String :=
  (ps.find? (fun p => scoreTrackAgainstProfile gs p.2 == maxScore gs ps)).map
    (fun p => p.1)

/-- `State` from `state.ts`: the persisted sync state, both fields
optional in the JSON file. -/
structure SyncState where
  lastProcessedAddedAt : Option Ts
  lastProfileRebuildTime : Option (List (String × Ts))
deriving DecidableEq, Repr

/-- `CachedProfile` from `cache.ts`. -/
structure CachedProfile where
  playlistId : String
  snapshotId : String
  tracksTotal : Nat
  updatedAt : Ts
  genres : GenreProfile
deriving DecidableEq, Repr

/-- The result record of `addTracksToPlaylistIfMissing`. -/
structure AddResult where
  added : Nat
  skipped : Nat
deriving DecidableEq, Repr

/-- The observable I/O steps a run performs, in order. -/
inductive Event where
  /-- `readState` touching the state file. -/
  | stateRead
  /-- `writeState` persisting the given sync state. -/
  | stateWrite (s : SyncState)
  /-- `getPlaylistSnapshot` for a playlist. -/
  | snapshotFetch (pid : String)
  /-- `getCachedProfile` reading the profile cache file. -/
  | cacheRead
  /-- `putCachedProfile` writing the given entry to the cache file. -/
  | cacheWrite (entry : CachedProfile)
  /-- A full membership enumeration of a playlist
  (`iteratePlaylistTracks`, also used by `getPlaylistTrackIdsSet`). -/
  | membershipFetch (pid : String)
  /-- One `getSeveralArtists` batch call. -/
  | artistsFetch (ids : List String)
  /-- Starting to enumerate the saved-tracks stream
  (`iterateSavedTracks`). -/
  | likedFetch
  /-- One `spotify.addTracksToPlaylist` batch call. -/
  | playlistAdd (pid : String) (trackIds : List String)
deriving DecidableEq, Repr

/-- The external world a run interacts with.  Functions model the remote
catalog (fallible); `stateFile` is the outcome of reading and parsing the
state file; `targets` is the output of `getTargetPlaylistIds` over the
process environment (resolved ids, first-occurrence order, deduplicated). -/
structure Env where
  stateFile : Except String SyncState
  cacheFile : List CachedProfile
  targets : List String
  rebuildIntervalHours : Int
  now : Ts
  snapshot : String → Except String (String × Option Nat)
  playlistTracks : String → Except String (List Track)
  severalArtists : List String → Except String (List Artist)
  savedTracks : List SavedItem
  addTracks : String → List String → Except String Unit

/-- `readState` from `state.ts`: any read or parse failure is caught and
the empty default state `{}` is returned. -/
def readState (env : Env) : SyncState :=
  match env.stateFile with
  | .ok s => s
  | .error _ => ⟨none, none⟩

/-- `getCachedProfile` from `cache.ts`: first entry matching both the
playlist id and the snapshot id, or none. -/
def getCachedProfile (cache : List CachedProfile) (pid snap : String) :
    Option CachedProfile :=
  cache.find? (fun p => p.playlistId == pid && p.snapshotId == snap)

/-- `putCachedProfile` from `cache.ts`: replace the first entry with the
same `(playlistId, snapshotId)` key, or append the new entry. -/
def putCachedProfile : List CachedProfile → CachedProfile → List CachedProfile
  | [], entry => [entry]
  | p :: rest, entry =>
    if p.playlistId == entry.playlistId && p.snapshotId == entry.snapshotId then
      entry :: rest
    else
      p :: putCachedProfile rest entry

/-- The artist-id `Set` accumulated over the member tracks in
`buildPlaylistGenreProfile` (insertion order, duplicates collapsed). -/
def uniqueArtistIds (tracks : List Track) : List String :=
  tracks.foldl (fun acc t => t.artists.foldl (fun acc2 a => setInsert acc2 a.id) acc) []

/-- The batched genre-count loop of `buildPlaylistGenreProfile`: for each
batch call `getSeveralArtists`, then bump a counter for every genre tag of
every returned artist. -/
def fetchGenreCounts (env : Env) :
    List (List String) → GenreProfile → List Event × Except String GenreProfile
  | [], counts => ([], .ok counts)
  | batch :: rest, counts =>
    match env.severalArtists batch with
    | .error e => ([.artistsFetch batch], .error e)
    | .ok artists =>
      let counts1 := artists.foldl (fun c a => a.genres.foldl bump c) counts
      let (evs, r) := fetchGenreCounts env rest counts1
      (.artistsFetch batch :: evs, r)

/-- `buildPlaylistGenreProfile` from `genreRouter.ts`.  Returns the
emitted events, the cache contents afterwards, and the profile or the
propagated catalog error.  The cache-hit path returns the stored genre
record verbatim without touching playlist membership. -/
def buildPlaylistGenreProfile (env : Env) (cache : List CachedProfile)
    (pid : String) : List Event × List CachedProfile × Except String GenreProfile :=
  match env.snapshot pid with
  | .error e => ([.snapshotFetch pid], cache, .error e)
  | .ok snap =>
    match getCachedProfile cache pid snap.1 with
    | some cached => ([.snapshotFetch pid, .cacheRead], cache, .ok cached.genres)
    | none =>
      match env.playlistTracks pid with
      | .error e =>
        ([.snapshotFetch pid, .cacheRead, .membershipFetch pid], cache, .error e)
      | .ok tracks =>
        let ids := (uniqueArtistIds tracks).filter (fun i => i ≠ "")
        match fetchGenreCounts env (chunksOf 49 ids) [] with
        | (evs, .error e) =>
          ([.snapshotFetch pid, .cacheRead, .membershipFetch pid] ++ evs,
            cache, .error e)
        | (evs, .ok counts) =>
          let entry : CachedProfile :=
            ⟨pid, snap.1, snap.2.getD ids.length, env.now, counts⟩
          ([.snapshotFetch pid, .cacheRead, .membershipFetch pid] ++ evs
              ++ [.cacheWrite entry],
            putCachedProfile cache entry, .ok counts)

/-- `shouldRebuildProfile` from `index.ts`: rebuild when no prior rebuild
time exists or when the elapsed hours reach the configured interval.  The
source divides milliseconds by 3600000 before comparing; multiplying the
interval instead is the same comparison. -/
def shouldRebuildProfile (env : Env) (lastRebuildTime : Option Ts) : Bool :=
  match lastRebuildTime with
  | none => true
  | some t => decide (env.rebuildIntervalHours * 3600000 ≤ (env.now : Int) - (t : Int))

/-- The profile-building loop of `main`: for each target playlist obtain
the profile through `buildPlaylistGenreProfile` (threading the cache) and,
when a rebuild was due, stamp the rebuild time with now.  `prior` is the
rebuild-time map loaded from the state; `rebuilds` accumulates the updated
copy. -/
def rebuildPhase (env : Env) (prior : List (String × Ts)) :
    List String → List CachedProfile → List (String × Ts) →
    List Event × List CachedProfile × List (String × Ts)
      × Except String (List (String × GenreProfile))
  | [], cache, rebuilds => ([], cache, rebuilds, .ok [])
  | pid :: rest, cache, rebuilds =>
    let needs := shouldRebuildProfile env (assocGet prior pid)
    match buildPlaylistGenreProfile env cache pid with
    | (bevs, cache1, .error e) => (bevs, cache1, rebuilds, .error e)
    | (bevs, cache1, .ok prof) =>
      let rebuilds1 := if needs then assocSet rebuilds pid env.now else rebuilds
      match rebuildPhase env prior rest cache1 rebuilds1 with
      | (evs, cache2, rebuilds2, .error e) => (bevs ++ evs, cache2, rebuilds2, .error e)
      | (evs, cache2, rebuilds2, .ok profs) =>
        (bevs ++ evs, cache2, rebuilds2, .ok ((pid, prof) :: profs))

/-- The batched genre-set collection done per streamed track in `main`:
like `fetchGenreCounts` but accumulating a `Set` of genre tags. -/
def collectGenres (env : Env) :
    List (List String) → List String → List Event × Except String (List String)
  | [], acc => ([], .ok acc)
  | batch :: rest, acc =>
    match env.severalArtists batch with
    | .error e => ([.artistsFetch batch], .error e)
    | .ok artists =>
      let acc1 := artists.foldl (fun s a => a.genres.foldl setInsert s) acc
      let (evs, r) := collectGenres env rest acc1
      (.artistsFetch batch :: evs, r)

/-- The routing step of `main` for one candidate track: collect the genre
set of its artists (ids filtered for truthiness, batches of 50) and pick
the destination.  When `pickBestPlaylist` is null the source falls back to
the top-scoring entry of the same profile record and then to the first
target; `pickBestPlaylist` is null exactly when the profile record is
empty, in which case the score list is empty too and the first target is
used. -/
def routeTrack (env : Env) (targets : List String)
    (profiles : List (String × GenreProfile)) (t : Track) :
    List Event × Except String String :=
  let artistIds := (t.artists.map (fun a => a.id)).filter (fun i => i ≠ "")
  match collectGenres env (chunksOf 49 artistIds) [] with
  | (evs, .error e) => (evs, .error e)
  | (evs, .ok trackGenres) =>
    match pickBestPlaylist trackGenres profiles with
    | some best => (evs, .ok best)
    | none => (evs, .ok targets.headI)

/-- A routing decision: which destination a streamed liked track was
assigned to (the liked-at time is carried for the statements about the
watermark). -/
structure RoutingDecision where
  trackId : String
  likedAt : Ts
  destination : String
deriving DecidableEq, Repr

/-- `(newTrackIdsByPlaylist[best] ??= []).push(id)`: append to the group
of the key, creating it at the end on first use. -/
def groupAppend (groups : List (String × List String)) (k v : String) :
    List (String × List String) :=
  match assocGet groups k with
  | some l => assocSet groups k (l ++ [v])
  | none => groups ++ [(k, [v])]

/-- The running newest-seen update of the streaming loop:
`if (!newestAddedAt || addedAt > newestAddedAt) newestAddedAt = addedAt`. -/
def bumpNewest (newest : Option Ts) (addedAt : Ts) : Option Ts :=
  match newest with
  | none => some addedAt
  | some n => if n < addedAt then some addedAt else some n

/-- The streaming loop of `main` over `iterateSavedTracks`.  `w` is the
watermark loaded at the start of the run; `newest` is the running newest
seen liked-at time (updated before the cut-off test, as in the source);
the loop stops at the first item with `added_at ≤ w`. -/
def streamPhase (env : Env) (w : Ts) (targets : List String)
    (profiles : List (String × GenreProfile)) :
    List SavedItem → Option Ts → List (String × List String) → List RoutingDecision →
    List Event × Option Ts × List (String × List String) × List RoutingDecision
      × Except String Unit
  | [], newest, groups, decisions => ([], newest, groups, decisions, .ok ())
  | item :: rest, newest, groups, decisions =>
    let newest1 := bumpNewest newest item.added_at
    if item.added_at ≤ w then
      ([], newest1, groups, decisions, .ok ())
    else
      match routeTrack env targets profiles item.track with
      | (evs, .error e) => (evs, newest1, groups, decisions, .error e)
      | (evs, .ok best) =>
        let groups1 := groupAppend groups best item.track.id
        let decisions1 := decisions ++ [⟨item.track.id, item.added_at, best⟩]
        match streamPhase env w targets profiles rest newest1 groups1 decisions1 with
        | (evs2, newest2, groups2, decisions2, r) =>
          (evs ++ evs2, newest2, groups2, decisions2, r)

/-- `getPlaylistTrackIdsSet` from `spotify.ts` applied to an enumerated
membership: collect the truthy track ids into a set. -/
def playlistTrackIds (tracks : List Track) : List String :=
  tracks.foldl (fun s t => if t.id ≠ "" then setInsert s t.id else s) []

/-- The pure core of `addTracksToPlaylistIfMissing`, over an explicit
membership snapshot: filter out ids already present, report added and
skipped counts, and return the membership after the append. -/
def addTracksIfMissingOn (existing : List String) (trackIds : List String) :
    AddResult × List String :=
  let toAdd := trackIds.filter (fun tid => decide (tid ∉ existing))
  if toAdd.isEmpty then (⟨0, trackIds.length⟩, existing)
  else (⟨toAdd.length, trackIds.length - toAdd.length⟩, existing ++ toAdd)

/-- The append loop of `addTracksToPlaylistIfMissing`: one
`addTracksToPlaylist` call per batch of 100. -/
def addBatches (env : Env) (pid : String) :
    List (List String) → List Event × Except String Unit
  | [] => ([], .ok ())
  | batch :: rest =>
    match env.addTracks pid batch with
    | .error e => ([.playlistAdd pid batch], .error e)
    | .ok _ =>
      let (evs, r) := addBatches env pid rest
      (.playlistAdd pid batch :: evs, r)

/-- `addTracksToPlaylistIfMissing` from `spotify.ts`: enumerate current
membership, then add only the missing ids (batches of 100). -/
def addTracksToPlaylistIfMissing (env : Env) (pid : String)
    (trackIds : List String) : List Event × Except String AddResult :=
  match env.playlistTracks pid with
  | .error e => ([.membershipFetch pid], .error e)
  | .ok tracks =>
    let existing := playlistTrackIds tracks
    let toAdd := trackIds.filter (fun tid => decide (tid ∉ existing))
    if toAdd.isEmpty then ([.membershipFetch pid], .ok ⟨0, trackIds.length⟩)
    else
      match addBatches env pid (chunksOf 99 toAdd) with
      | (evs, .error e) => (.membershipFetch pid :: evs, .error e)
      | (evs, .ok _) =>
        (.membershipFetch pid :: evs,
          .ok ⟨toAdd.length, trackIds.length - toAdd.length⟩)

/-- The writing loop of `main`: one `addTracksToPlaylistIfMissing` call
per destination group with at least one decided track. -/
def writePhase (env : Env) :
    List (String × List String) → List Event × Except String Unit
  | [] => ([], .ok ())
  | (pid, ids) :: rest =>
    if ids.isEmpty then writePhase env rest
    else
      match addTracksToPlaylistIfMissing env pid ids with
      | (evs, .error e) => (evs, .error e)
      | (evs, .ok _) =>
        let (evs2, r) := writePhase env rest
        (evs ++ evs2, r)

/-- Everything a run produces: the I/O trace, the routing decisions in
order, and either the persisted sync state or the error that aborted the
run. -/
structure RunResult where
  trace : List Event
  routed : List RoutingDecision
  outcome : Except String SyncState
deriving Repr

/-- The message of the configuration error thrown when no target playlist
resolves. -/
def configErrorMsg : String :=
  "Configure at least one TARGET_PLAYLIST_ID_* or TARGET_PLAYLIST_IDS in .env"

/-- The body of `main` from `index.ts` after the state has been read,
mirroring its control flow: first-run branch, target check, profile
rebuilding, streaming with routing, playlist writing, and the final state
write. -/
def runFromState (env : Env) (state0 : SyncState) : RunResult :=
  let rebuild0 := state0.lastProfileRebuildTime.getD []
  match state0.lastProcessedAddedAt with
  | none =>
    let written : SyncState := ⟨some env.now, some rebuild0⟩
    ⟨[.stateWrite written], [], .ok written⟩
  | some w =>
    if env.targets.isEmpty then
      ⟨[], [], .error configErrorMsg⟩
    else
      match rebuildPhase env rebuild0 env.targets env.cacheFile rebuild0 with
      | (evs1, _, _, .error e) => ⟨evs1, [], .error e⟩
      | (evs1, _, rebuilds, .ok profiles) =>
        match streamPhase env w env.targets profiles env.savedTracks (some w) [] [] with
        | (evs2, _, _, decisions, .error e) =>
          ⟨evs1 ++ .likedFetch :: evs2, decisions, .error e⟩
        | (evs2, newest, groups, decisions, .ok _) =>
          match writePhase env groups with
          | (evs3, .error e) =>
            ⟨evs1 ++ .likedFetch :: evs2 ++ evs3, decisions, .error e⟩
          | (evs3, .ok _) =>
            let newW : Option Ts := match newest with
              | some nw => if w < nw then some nw else some w
              | none => some w
            let written : SyncState := ⟨newW, some rebuilds⟩
            ⟨evs1 ++ .likedFetch :: evs2 ++ evs3 ++ [.stateWrite written],
              decisions, .ok written⟩

/-- `main` from `index.ts`: read the state, then run the body. -/
def runMain (env : Env) : RunResult :=
  let r := runFromState env (readState env)
  ⟨.stateRead :: r.trace, r.routed, r.outcome⟩

/-- Chaining runs: thread the persisted state of each successful run into
the next; `none` as soon as a run aborts.  Each list entry pairs the state
a run started from with what the run produced. -/
def chainStates : SyncState → List Env → Option (List (SyncState × RunResult))
  | _, [] => some []
  | s, env :: rest =>
    match (runFromState env s).outcome with
    | .error _ => none
    | .ok s2 => (chainStates s2 rest).map (fun l => (s, runFromState env s) :: l)

section Lemmas

/-- Summing with `foldl` equals the mapped sum. -/
theorem foldl_add_eq_sum (w : String → Nat) (gs : List String) (n : Nat) :
    gs.foldl (fun s g => s + w g) n = n + (gs.map w).sum := by
  induction gs generalizing n with
  | nil => simp
  | cons g rest ih => simp [ih, Nat.add_assoc]

/-- Unfolding `maxScore` on an empty entry list. -/
theorem maxScore_nil (gs : List String) : maxScore gs [] = 0 := rfl

/-- Unfolding `maxScore` on a cons. -/
theorem maxScore_cons (gs : List String) (p : String × GenreProfile)
    (rest : List (String × GenreProfile)) :
    maxScore gs (p :: rest)
      = max (scoreTrackAgainstProfile gs p.2) (maxScore gs rest) := rfl

/-- Every entry scores at most `maxScore`. -/
theorem score_le_maxScore (gs : List String) (ps : List (String × GenreProfile)) :
    ∀ p ∈ ps, scoreTrackAgainstProfile gs p.2 ≤ maxScore gs ps := by
  induction ps with
  | nil => simp
  | cons q rest ih =>
    intro p hp
    rw [List.mem_cons] at hp
    rw [maxScore_cons]
    rcases hp with hp | hp
    · rw [hp]; exact le_max_left _ _
    · exact le_trans (ih p hp) (le_max_right _ _)

/-- When no entry beats the running best score, the loop keeps its
accumulator. -/
theorem pickFold_keep (gs : List String) :
    ∀ (ps : List (String × GenreProfile)) (b : Option String × Int),
      (∀ p ∈ ps, (scoreTrackAgainstProfile gs p.2 : Int) ≤ b.2) →
      ps.foldl (pickStep gs) b = b := by
  intro ps
  induction ps with
  | nil => intro b _; rfl
  | cons q rest ih =>
    intro b h
    have hq : ¬ ((scoreTrackAgainstProfile gs q.2 : Int) > b.2) :=
      not_lt.mpr (h q (List.mem_cons_self q rest))
    have hstep : pickStep gs b q = b := by
      simp [pickStep, hq]
    rw [List.foldl_cons, hstep]
    exact ih b (fun p hp => h p (List.mem_cons_of_mem q hp))

/-- When some entry beats the running best score, the loop finishes at
the first entry attaining the maximum. -/
theorem pickFold_win (gs : List String) :
    ∀ (ps : List (String × GenreProfile)) (b : Option String × Int),
      ps ≠ [] → b.2 < (maxScore gs ps : Int) →
      ∃ q, ps.find? (fun p => scoreTrackAgainstProfile gs p.2 == maxScore gs ps) = some q ∧
        ps.foldl (pickStep gs) b = (some q.1, (maxScore gs ps : Int)) := by
  intro ps
  induction ps with
  | nil => intro b h _; exact absurd rfl h
  | cons p rest ih =>
    intro b _ hb
    by_cases hc : (scoreTrackAgainstProfile gs p.2 : Int) > b.2
    · have hstep : pickStep gs b p
          = (some p.1, (scoreTrackAgainstProfile gs p.2 : Int)) := by
        simp [pickStep, hc]
      by_cases h1 : maxScore gs rest ≤ scoreTrackAgainstProfile gs p.2
      · have hMp : maxScore gs (p :: rest) = scoreTrackAgainstProfile gs p.2 := by
          rw [maxScore_cons]; exact Nat.max_eq_left h1
        have hpos : (fun q => scoreTrackAgainstProfile gs q.2
            == maxScore gs (p :: rest)) p = true := by
          simp [hMp]
        refine ⟨p, List.find?_cons_of_pos rest hpos, ?_⟩
        rw [List.foldl_cons, hstep]
        rw [pickFold_keep gs rest (some p.1, (scoreTrackAgainstProfile gs p.2 : Int))
          (fun q hq => by
            have h2 := le_trans (score_le_maxScore gs rest q hq) h1
            show (scoreTrackAgainstProfile gs q.2 : Int)
              ≤ (scoreTrackAgainstProfile gs p.2 : Int)
            exact_mod_cast h2)]
        rw [hMp]
      · push_neg at h1
        have hrest : rest ≠ [] := by
          intro hns
          rw [hns, maxScore_nil] at h1
          omega
        have hMr : maxScore gs (p :: rest) = maxScore gs rest := by
          rw [maxScore_cons]; exact Nat.max_eq_right (le_of_lt h1)
        obtain ⟨q, hfind, hfold⟩ :=
          ih (some p.1, (scoreTrackAgainstProfile gs p.2 : Int)) hrest
            (by
              show (scoreTrackAgainstProfile gs p.2 : Int) < (maxScore gs rest : Int)
              exact_mod_cast h1)
        have hneg : ¬ ((fun q => scoreTrackAgainstProfile gs q.2
            == maxScore gs (p :: rest)) p = true) := by
          simp only [beq_iff_eq, hMr]
          exact Nat.ne_of_lt h1
        refine ⟨q, ?_, ?_⟩
        · rw [List.find?_cons_of_neg rest hneg, hMr]
          exact hfind
        · rw [List.foldl_cons, hstep, hMr]
          exact hfold
    · push_neg at hc
      have hstep : pickStep gs b p = b := by
        simp [pickStep, not_lt.mpr hc]
      have hple : (scoreTrackAgainstProfile gs p.2 : Int) < maxScore gs (p :: rest) :=
        lt_of_le_of_lt hc hb
      have hMr : maxScore gs (p :: rest) = maxScore gs rest := by
        rw [maxScore_cons]
        refine Nat.max_eq_right ?_
        by_contra hlt
        push_neg at hlt
        have hx : maxScore gs (p :: rest) = scoreTrackAgainstProfile gs p.2 := by
          rw [maxScore_cons]; exact Nat.max_eq_left (le_of_lt hlt)
        rw [hx] at hple
        exact lt_irrefl _ hple
      have hrest : rest ≠ [] := by
        intro hns
        rw [hMr, hns, maxScore_nil] at hple
        omega
      obtain ⟨q, hfind, hfold⟩ := ih b hrest (by rw [hMr] at hb; exact hb)
      have hneg : ¬ ((fun q => scoreTrackAgainstProfile gs q.2
          == maxScore gs (p :: rest)) p = true) := by
        simp only [beq_iff_eq]
        intro hEq
        rw [hEq] at hple
        exact lt_irrefl _ hple
      refine ⟨q, ?_, ?_⟩
      · rw [List.find?_cons_of_neg rest hneg, hMr]
        exact hfind
      · rw [List.foldl_cons, hstep, hMr]
        exact hfold

/-- Scores with an empty genre list are all 0, so the maximum is 0. -/
theorem maxScore_empty_genres : ∀ ps : List (String × GenreProfile), maxScore [] ps = 0 := by
  intro ps
  induction ps with
  | nil => rfl
  | cons p rest ih =>
    rw [maxScore_cons, ih]
    simp [scoreTrackAgainstProfile]

end Lemmas

/-- C8: for every genre list and profile, `scoreTrackAgainstProfile` is
the sum over the listed genres of the weight the profile assigns, an
absent genre contributing 0; being a pure function of its arguments it is
deterministic and has no side effects.  The two scenario profiles from
the specification score a pop-tagged track 1 and 0 respectively. -/
theorem scoreTrackAgainstProfile_eq_sum (gs : List String) (profile : GenreProfile) :
    scoreTrackAgainstProfile gs profile
        = (gs.map (fun g => (assocGet profile g).getD 0)).sum ∧
    scoreTrackAgainstProfile ["pop"] [("rock", 5), ("pop", 1)] = 1 ∧
    scoreTrackAgainstProfile ["pop"] [("jazz", 4)] = 0 := by
  refine ⟨?_, rfl, rfl⟩
  have h := foldl_add_eq_sum (fun g => (assocGet profile g).getD 0) gs 0
  simpa [scoreTrackAgainstProfile] using h

/-- C7: `pickBestPlaylist` agrees with the first-maximum specification
(the entry with the strictly highest score wins and, among entries tied
for the maximum, the first one in iteration order wins); on a non-empty
profile list it always returns an id, and with an empty genre list every
score is 0 and the first entry is returned — defined fallback behavior,
not an error. -/
theorem pickBestPlaylist_first_max (gs : List String)
    (ps : List (String × GenreProfile)) :
    pickBestPlaylist gs ps = pickBestPlaylistSpec gs ps ∧
    (ps ≠ [] → ∃ b, pickBestPlaylist gs ps = some b) ∧
    (∀ p rest, ps = p :: rest → gs = [] → pickBestPlaylist gs ps = some p.1) := by
  rcases ps with _ | ⟨p, rest⟩
  · refine ⟨rfl, ?_, ?_⟩
    · intro h; exact absurd rfl h
    · intro p rest h _; exact absurd h (by simp)
  · obtain ⟨q, hfind, hfold⟩ := pickFold_win gs (p :: rest) (none, -1)
      (by simp)
      (by
        have h0 := Int.ofNat_nonneg (maxScore gs (p :: rest))
        omega)
    have h1 : pickBestPlaylist gs (p :: rest) = some q.1 := by
      rw [pickBestPlaylist, hfold]
    have h2 : pickBestPlaylistSpec gs (p :: rest) = some q.1 := by
      rw [pickBestPlaylistSpec, hfind]
      rfl
    refine ⟨h1.trans h2.symm, fun _ => ⟨q.1, h1⟩, ?_⟩
    intro p0 rest0 heq hgs
    injection heq with hph hrh
    subst hph
    subst hgs
    have hfindnil : (p :: rest).find?
        (fun r => scoreTrackAgainstProfile [] r.2 == maxScore [] (p :: rest))
          = some p :=
      List.find?_cons_of_pos rest
        (by simp [scoreTrackAgainstProfile, maxScore_empty_genres])
    have h3 : pickBestPlaylistSpec [] (p :: rest) = some p.1 := by
      rw [pickBestPlaylistSpec, hfindnil]
      rfl
    rw [h1, ← h2]
    exact h3

/-- Witness for C7 at a concrete input: two profiles, an empty genre
set; the first playlist in iteration order is selected. -/
theorem pickBestPlaylist_first_max_witness :
    pickBestPlaylist [] [("A", [("rock", 5)]), ("B", [("rock", 5)])] = some "A" := by
  have h := pickBestPlaylist_first_max [] [("A", [("rock", 5)]), ("B", [("rock", 5)])]
  exact h.2.2 ("A", [("rock", 5)]) [("B", [("rock", 5)])] rfl rfl

/-- An inert environment, the starting point for the concrete
environments of the witnesses. -/
def baseEnv : Env where
  stateFile := .ok ⟨none, none⟩
  cacheFile := []
  targets := []
  rebuildIntervalHours := 24
  now := 1000
  snapshot := fun _ => .error "offline"
  playlistTracks := fun _ => .error "offline"
  severalArtists := fun _ => .error "offline"
  savedTracks := []
  addTracks := fun _ _ => .error "offline"

/-- When every catalog append succeeds, the batch loop succeeds. -/
theorem addBatches_ok (env : Env) (pid : String)
    (h : ∀ b, env.addTracks pid b = .ok ()) :
    ∀ bs, (addBatches env pid bs).2 = .ok () := by
  intro bs
  induction bs with
  | nil => rfl
  | cons b rest ih =>
    simp only [addBatches, h b]
    exact ih

/-- C9: `addTracksToPlaylistIfMissing` inserts only the ids not already
present in the playlist (membership afterwards is the old membership plus
exactly the missing listed ids, and the added and skipped counts report
them); a second call with the same list on the resulting membership
inserts nothing and reports added 0 with every id skipped; and the
effectful function computes exactly this on the fetched membership when
the catalog appends succeed. -/
theorem addTracksIfMissing_idempotent (existing trackIds : List String)
    (env : Env) (pid : String) (tracks : List Track)
    (hm : env.playlistTracks pid = .ok tracks)
    (hadd : ∀ b, env.addTracks pid b = .ok ()) :
    (addTracksIfMissingOn existing trackIds).2
        = existing ++ trackIds.filter (fun tid => decide (tid ∉ existing)) ∧
    (addTracksIfMissingOn existing trackIds).1.added
        = (trackIds.filter (fun tid => decide (tid ∉ existing))).length ∧
    (addTracksIfMissingOn existing trackIds).1.skipped
        = trackIds.length
            - (trackIds.filter (fun tid => decide (tid ∉ existing))).length ∧
    addTracksIfMissingOn (addTracksIfMissingOn existing trackIds).2 trackIds
        = (⟨0, trackIds.length⟩, (addTracksIfMissingOn existing trackIds).2) ∧
    (addTracksToPlaylistIfMissing env pid trackIds).2
        = .ok (addTracksIfMissingOn (playlistTrackIds tracks) trackIds).1 := by
  have unf : ∀ ex : List String, addTracksIfMissingOn ex trackIds =
      if (trackIds.filter (fun tid => decide (tid ∉ ex))).isEmpty then
        (⟨0, trackIds.length⟩, ex)
      else
        (⟨(trackIds.filter (fun tid => decide (tid ∉ ex))).length,
            trackIds.length - (trackIds.filter (fun tid => decide (tid ∉ ex))).length⟩,
          ex ++ trackIds.filter (fun tid => decide (tid ∉ ex))) :=
    fun ex => rfl
  have hmain : ∀ ex : List String,
      (addTracksIfMissingOn ex trackIds).2
          = ex ++ trackIds.filter (fun tid => decide (tid ∉ ex)) ∧
      (addTracksIfMissingOn ex trackIds).1.added
          = (trackIds.filter (fun tid => decide (tid ∉ ex))).length ∧
      (addTracksIfMissingOn ex trackIds).1.skipped
          = trackIds.length - (trackIds.filter (fun tid => decide (tid ∉ ex))).length := by
    intro ex
    by_cases h : (trackIds.filter (fun tid => decide (tid ∉ ex))).isEmpty
    · have hnil : trackIds.filter (fun tid => decide (tid ∉ ex)) = [] := by
        simpa using h
      rw [unf, if_pos h, hnil]
      refine ⟨by simp, rfl, by simp⟩
    · rw [unf, if_neg h]
      exact ⟨rfl, rfl, rfl⟩
  have hsecond :
      addTracksIfMissingOn (addTracksIfMissingOn existing trackIds).2 trackIds
        = (⟨0, trackIds.length⟩, (addTracksIfMissingOn existing trackIds).2) := by
    have h2 := (hmain existing).1
    have hnil : trackIds.filter
        (fun tid => decide (tid ∉ (addTracksIfMissingOn existing trackIds).2)) = [] := by
      rw [List.filter_eq_nil_iff]
      intro tid htid
      simp only [decide_eq_true_eq, not_not]
      rw [h2, List.mem_append]
      by_cases hin : tid ∈ existing
      · exact Or.inl hin
      · refine Or.inr ?_
        rw [List.mem_filter]
        exact ⟨htid, by simpa using hin⟩
    have hempty : (trackIds.filter
        (fun tid => decide (tid ∉ (addTracksIfMissingOn existing trackIds).2))).isEmpty := by
      rw [hnil]; rfl
    rw [unf, if_pos hempty]
  have heff : (addTracksToPlaylistIfMissing env pid trackIds).2
      = .ok (addTracksIfMissingOn (playlistTrackIds tracks) trackIds).1 := by
    by_cases h : (trackIds.filter
        (fun tid => decide (tid ∉ playlistTrackIds tracks))).isEmpty
    · rw [unf, if_pos h]
      simp only [addTracksToPlaylistIfMissing, hm]
      rw [if_pos h]
    · rw [unf, if_neg h]
      have hb := addBatches_ok env pid hadd
        (chunksOf 99 (trackIds.filter
          (fun tid => decide (tid ∉ playlistTrackIds tracks))))
      simp only [addTracksToPlaylistIfMissing, hm]
      rw [if_neg h]
      rcases hs : addBatches env pid
          (chunksOf 99 (trackIds.filter
            (fun tid => decide (tid ∉ playlistTrackIds tracks)))) with ⟨evs, r⟩
      rw [hs] at hb
      simp only at hb
      rw [hb]
  exact ⟨(hmain existing).1, (hmain existing).2.1, (hmain existing).2.2, hsecond, heff⟩

section CountLemmas

/-- Lookup on a cons. -/
theorem assocGet_cons (p : String × α) (l : List (String × α)) (k : String) :
    assocGet (p :: l) k = if p.1 == k then some p.2 else assocGet l k := by
  cases hb : (p.1 == k) with
  | true => simp [assocGet, List.find?_cons, hb]
  | false => simp [assocGet, List.find?_cons, hb]

/-- Lookup after an in-place update. -/
theorem assocGet_assocSet (m : List (String × α)) (k k2 : String) (v : α) :
    assocGet (assocSet m k v) k2 = if k2 = k then some v else assocGet m k2 := by
  induction m with
  | nil =>
    simp only [assocSet, assocGet_cons, beq_iff_eq]
    by_cases h : k2 = k
    · subst h; simp
    · rw [if_neg (fun he => h he.symm), if_neg h]
  | cons p rest ih =>
    simp only [assocSet]
    by_cases hp : (p.1 == k)
    · rw [if_pos hp]
      have hpk : p.1 = k := by simpa using hp
      simp only [assocGet_cons, beq_iff_eq]
      by_cases h : k2 = k
      · subst h; simp
      · rw [if_neg (fun he => h he.symm), if_neg h,
          if_neg (by rw [hpk]; exact fun he => h he.symm)]
    · rw [if_neg hp]
      simp only [assocGet_cons, beq_iff_eq]
      by_cases hq : p.1 = k2
      · have hk2 : ¬ k2 = k := by
          intro he
          exact hp (by rw [beq_iff_eq, hq, he])
        rw [if_pos hq, if_neg hk2, if_pos hq]
      · rw [if_neg hq, if_neg hq, ih]

/-- Lookup after a bump. -/
theorem assocGet_bump (m : GenreProfile) (g g2 : String) :
    assocGet (bump m g) g2
      = if g2 = g then some ((assocGet m g).getD 0 + 1) else assocGet m g2 := by
  rw [bump, assocGet_assocSet]

/-- Folding `bump` over a flat tag list counts occurrences. -/
theorem foldl_bump_count (l : List String) : ∀ (m : GenreProfile) (g : String),
    (assocGet (l.foldl bump m) g).getD 0 = (assocGet m g).getD 0 + l.count g := by
  induction l with
  | nil => intro m g; simp
  | cons x xs ih =>
    intro m g
    rw [List.foldl_cons, ih, assocGet_bump]
    by_cases h : g = x
    · rw [if_pos h]
      subst h
      simp [List.count_cons]
      omega
    · rw [if_neg h]
      simp [List.count_cons, h]

/-- A nested fold of `bump` over tag lists is a single fold over the
flattened tags. -/
theorem foldl_foldl_bump {β : Type} (f : β → List String) (xs : List β) :
    ∀ m : GenreProfile,
      xs.foldl (fun c x => (f x).foldl bump c) m = (xs.flatMap f).foldl bump m := by
  induction xs with
  | nil => intro m; rfl
  | cons x rest ih =>
    intro m
    rw [List.foldl_cons, ih, List.flatMap_cons, List.foldl_append]

/-- `fetchGenreCounts` under a well-behaved catalog: one fetch event per
batch, and the counts are the `bump`-fold over all tags of all requested
artists. -/
theorem fetchGenreCounts_ok (env : Env) (db : String → List String)
    (hart : ∀ b, env.severalArtists b = .ok (b.map (fun i => ⟨i, db i⟩))) :
    ∀ (bs : List (List String)) (m : GenreProfile),
      fetchGenreCounts env bs m
        = (bs.map (fun b => Event.artistsFetch b),
            .ok ((bs.flatten.flatMap db).foldl bump m)) := by
  intro bs
  induction bs with
  | nil => intro m; simp [fetchGenreCounts]
  | cons b rest ih =>
    intro m
    have hc : (List.map (fun i => Artist.mk i (db i)) b).foldl
        (fun c a => a.genres.foldl bump c) m = (b.flatMap db).foldl bump m := by
      rw [List.foldl_map]
      exact foldl_foldl_bump db b m
    simp only [fetchGenreCounts, hart b, hc, ih, List.map_cons, List.flatten_cons,
      List.flatMap_append, List.foldl_append]

/-- The chunks of a list flatten back to the list (fuel version). -/
theorem chunksOfAux_flatten (n : Nat) : ∀ (fuel : Nat) (l : List α),
    l.length ≤ fuel → (chunksOfAux n fuel l).flatten = l := by
  intro fuel
  induction fuel with
  | zero =>
    intro l h
    rw [Nat.le_zero] at h
    rw [List.length_eq_zero] at h
    subst h
    rfl
  | succ f ih =>
    intro l h
    cases l with
    | nil => rfl
    | cons x xs =>
      rw [chunksOfAux, List.flatten_cons,
        ih (xs.drop n) (by simp only [List.length_drop]; simp at h; omega),
        List.take_succ_cons, List.cons_append, List.take_append_drop]

/-- The chunks of a list flatten back to the list. -/
theorem chunksOf_flatten (n : Nat) (l : List α) : (chunksOf n l).flatten = l :=
  chunksOfAux_flatten n l.length l le_rfl

/-- Membership in a set insertion. -/
theorem mem_setInsert (acc : List String) (x y : String) :
    y ∈ setInsert acc x ↔ y ∈ acc ∨ y = x := by
  unfold setInsert
  by_cases h : x ∈ acc
  · rw [if_pos h]
    constructor
    · exact Or.inl
    · rintro (hy | hy)
      · exact hy
      · rw [hy]; exact h
  · rw [if_neg h]
    simp

/-- Set insertion keeps a duplicate-free list duplicate-free. -/
theorem nodup_setInsert (acc : List String) (x : String) (h : acc.Nodup) :
    (setInsert acc x).Nodup := by
  unfold setInsert
  by_cases hx : x ∈ acc
  · rw [if_pos hx]; exact h
  · rw [if_neg hx]
    simp [List.nodup_append, h, hx]

/-- Membership after inserting all artist ids of a track. -/
theorem artistFold_mem (arts : List ArtistRef) : ∀ (acc : List String) (y : String),
    y ∈ arts.foldl (fun a2 a => setInsert a2 a.id) acc
      ↔ y ∈ acc ∨ ∃ ar ∈ arts, ar.id = y := by
  induction arts with
  | nil => intro acc y; simp
  | cons a rest ih =>
    intro acc y
    rw [List.foldl_cons, ih, mem_setInsert]
    simp only [List.mem_cons]
    constructor
    · rintro ((hy | hy) | ⟨ar, har, hid⟩)
      · exact Or.inl hy
      · exact Or.inr ⟨a, Or.inl rfl, hy.symm⟩
      · exact Or.inr ⟨ar, Or.inr har, hid⟩
    · rintro (hy | ⟨ar, har | har, hid⟩)
      · exact Or.inl (Or.inl hy)
      · subst har; exact Or.inl (Or.inr hid.symm)
      · exact Or.inr ⟨ar, har, hid⟩

/-- Inserting all artist ids of a track keeps the accumulator
duplicate-free. -/
theorem artistFold_nodup (arts : List ArtistRef) : ∀ acc : List String,
    acc.Nodup → (arts.foldl (fun a2 a => setInsert a2 a.id) acc).Nodup := by
  induction arts with
  | nil => intro acc h; exact h
  | cons a rest ih => intro acc h; exact ih _ (nodup_setInsert _ _ h)

/-- Membership after accumulating the artist ids of all tracks. -/
theorem trackFold_mem (tracks : List Track) : ∀ (acc : List String) (y : String),
    y ∈ tracks.foldl
        (fun acc t => t.artists.foldl (fun a2 a => setInsert a2 a.id) acc) acc
      ↔ y ∈ acc ∨ ∃ t ∈ tracks, ∃ ar ∈ t.artists, ar.id = y := by
  induction tracks with
  | nil => intro acc y; simp
  | cons t rest ih =>
    intro acc y
    rw [List.foldl_cons, ih, artistFold_mem]
    simp only [List.mem_cons]
    constructor
    · rintro ((hy | ⟨ar, har, hid⟩) | ⟨t2, ht2, hrest⟩)
      · exact Or.inl hy
      · exact Or.inr ⟨t, Or.inl rfl, ar, har, hid⟩
      · exact Or.inr ⟨t2, Or.inr ht2, hrest⟩
    · rintro (hy | ⟨t2, ht2 | ht2, hrest⟩)
      · exact Or.inl (Or.inl hy)
      · subst ht2; exact Or.inl (Or.inr hrest)
      · exact Or.inr ⟨t2, ht2, hrest⟩

/-- Accumulating artist ids keeps the accumulator duplicate-free. -/
theorem trackFold_nodup (tracks : List Track) : ∀ acc : List String,
    acc.Nodup → (tracks.foldl
      (fun acc t => t.artists.foldl (fun a2 a => setInsert a2 a.id) acc) acc).Nodup := by
  induction tracks with
  | nil => intro acc h; exact h
  | cons t rest ih => intro acc h; exact ih _ (artistFold_nodup _ _ h)

/-- The artist-id set of a playlist is duplicate-free: every artist id
appears at most once however many tracks carry it. -/
theorem uniqueArtistIds_nodup (tracks : List Track) : (uniqueArtistIds tracks).Nodup :=
  trackFold_nodup tracks [] List.nodup_nil

/-- The artist-id set of a playlist holds exactly the artist ids of its
tracks. -/
theorem mem_uniqueArtistIds (tracks : List Track) (y : String) :
    y ∈ uniqueArtistIds tracks ↔ ∃ t ∈ tracks, ∃ ar ∈ t.artists, ar.id = y := by
  rw [uniqueArtistIds, trackFold_mem]
  simp

/-- Tag occurrences across a flattened tag list, artist by artist. -/
theorem count_flatMap_eq_sum (db : String → List String) (g : String) :
    ∀ ids : List String,
      ((ids.flatMap db).count g) = (ids.map (fun i => (db i).count g)).sum := by
  intro ids
  induction ids with
  | nil => simp
  | cons i rest ih => simp [List.flatMap_cons, List.count_append, ih]

/-- On a duplicate-free tag list, the occurrence count of a tag is its
membership indicator. -/
theorem count_eq_indicator (l : List String) (g : String) (h : l.Nodup) :
    l.count g = if g ∈ l then 1 else 0 := by
  by_cases hm : g ∈ l
  · rw [if_pos hm]
    exact List.count_eq_one_of_mem h hm
  · rw [if_neg hm]
    exact List.count_eq_zero_of_not_mem hm

/-- Summing membership indicators counts the members satisfying the
predicate. -/
theorem sum_indicator_countP (db : String → List String) (g : String) :
    ∀ ids : List String,
      (ids.map (fun i => if g ∈ db i then 1 else 0)).sum
        = ids.countP (fun i => decide (g ∈ db i)) := by
  intro ids
  induction ids with
  | nil => rfl
  | cons i rest ih =>
    rw [List.map_cons, List.sum_cons, List.countP_cons, ih]
    by_cases h : g ∈ db i
    · simp [h]
      omega
    · simp [h]

end CountLemmas

/-- C1: on the cache-miss path of `buildPlaylistGenreProfile`, under a
well-behaved catalog (each batch call returns exactly the requested
artists with their tag lists, every artist id on the tracks is truthy,
and each tag list is duplicate-free), the returned profile weighs every
genre `g` by the number of distinct artists of the playlist that carry
tag `g`: the accumulated artist-id set is duplicate-free and holds
exactly the artist ids of the member tracks, so an artist on many tracks
counts once and an artist with no tags contributes nothing. -/
theorem buildProfile_weights_distinct_artists
    (env : Env) (cache : List CachedProfile) (pid snapId : String) (tt : Option Nat)
    (tracks : List Track) (db : String → List String)
    (hsnap : env.snapshot pid = .ok (snapId, tt))
    (hmiss : getCachedProfile cache pid snapId = none)
    (htracks : env.playlistTracks pid = .ok tracks)
    (hart : ∀ b, env.severalArtists b = .ok (b.map (fun i => ⟨i, db i⟩)))
    (hids : ∀ t ∈ tracks, ∀ ar ∈ t.artists, ar.id ≠ "")
    (hnd : ∀ i, (db i).Nodup) :
    ∃ prof, (buildPlaylistGenreProfile env cache pid).2.2 = .ok prof ∧
      (uniqueArtistIds tracks).Nodup ∧
      (∀ y, y ∈ uniqueArtistIds tracks ↔ ∃ t ∈ tracks, ∃ ar ∈ t.artists, ar.id = y) ∧
      (∀ g, (assocGet prof g).getD 0
          = (uniqueArtistIds tracks).countP (fun i => decide (g ∈ db i))) := by
  have hfilter : (uniqueArtistIds tracks).filter (fun i => i ≠ "")
      = uniqueArtistIds tracks := by
    rw [List.filter_eq_self]
    intro a ha
    rw [mem_uniqueArtistIds] at ha
    obtain ⟨t, ht, ar, har, hid⟩ := ha
    subst hid
    simpa using hids t ht ar har
  have hbuild : (buildPlaylistGenreProfile env cache pid).2.2
      = .ok (((uniqueArtistIds tracks).flatMap db).foldl bump []) := by
    simp only [buildPlaylistGenreProfile, hsnap, hmiss, htracks,
      fetchGenreCounts_ok env db hart, chunksOf_flatten, hfilter]
  refine ⟨_, hbuild, uniqueArtistIds_nodup tracks,
    fun y => mem_uniqueArtistIds tracks y, ?_⟩
  intro g
  rw [foldl_bump_count]
  have h2 : (assocGet ([] : GenreProfile) g).getD 0 = 0 := rfl
  rw [h2, Nat.zero_add, count_flatMap_eq_sum,
    List.map_congr_left (fun i _ => count_eq_indicator (db i) g (hnd i))]
  exact sum_indicator_countP db g (uniqueArtistIds tracks)

/-- Recognizer for membership enumeration events. -/
def Event.isMembershipFetch : Event → Bool
  | .membershipFetch _ => true
  | _ => false

/-- Recognizer for cache write events. -/
def Event.isCacheWrite : Event → Bool
  | .cacheWrite _ => true
  | _ => false

/-- After writing a fresh entry into a cache that misses its key, looking
the key up finds exactly that entry. -/
theorem getCached_putCached (entry : CachedProfile) : ∀ cache : List CachedProfile,
    (∀ p ∈ cache,
      ¬((p.playlistId == entry.playlistId && p.snapshotId == entry.snapshotId) = true)) →
    getCachedProfile (putCachedProfile cache entry) entry.playlistId entry.snapshotId
      = some entry := by
  intro cache
  induction cache with
  | nil =>
    intro _
    rw [putCachedProfile, getCachedProfile]
    exact List.find?_cons_of_pos _ (by simp)
  | cons p rest ih =>
    intro hall
    have hp := hall p (List.mem_cons_self _ _)
    rw [putCachedProfile, if_neg hp, getCachedProfile]
    have hstep : List.find? (fun q => q.playlistId == entry.playlistId
          && q.snapshotId == entry.snapshotId) (p :: putCachedProfile rest entry)
        = List.find? (fun q => q.playlistId == entry.playlistId
          && q.snapshotId == entry.snapshotId) (putCachedProfile rest entry) :=
      List.find?_cons_of_neg _ hp
    rw [hstep]
    have hr := ih (fun q hq => hall q (List.mem_cons_of_mem _ hq))
    rw [getCachedProfile] at hr
    exact hr

/-- C3: once the content version is fetched, a cache hit returns the
cached entry genres verbatim, leaves the cache unchanged and issues no
membership enumeration, no artist fetch and no cache write; a cache miss
(no stored entry matches the current version) forces exactly one rebuild
— one membership enumeration, one artist-fetch event per id batch and one
cache write — after which an immediate second call is a pure cache hit
with no further fetches. -/
theorem buildProfile_cache_hit_and_miss
    (env : Env) (cache : List CachedProfile) (pid snapId : String) (tt : Option Nat)
    (hsnap : env.snapshot pid = .ok (snapId, tt)) :
    (∀ entry, getCachedProfile cache pid snapId = some entry →
      buildPlaylistGenreProfile env cache pid
        = ([.snapshotFetch pid, .cacheRead], cache, .ok entry.genres)) ∧
    (getCachedProfile cache pid snapId = none →
      ∀ (tracks : List Track) (db : String → List String),
        env.playlistTracks pid = .ok tracks →
        (∀ b, env.severalArtists b = .ok (b.map (fun i => ⟨i, db i⟩))) →
        ∃ entry, entry.playlistId = pid ∧ entry.snapshotId = snapId ∧
          buildPlaylistGenreProfile env cache pid
            = ([.snapshotFetch pid, .cacheRead, .membershipFetch pid]
                ++ (chunksOf 49
                    ((uniqueArtistIds tracks).filter (fun i => i ≠ ""))).map
                    (fun b => Event.artistsFetch b)
                ++ [.cacheWrite entry],
              putCachedProfile cache entry, .ok entry.genres) ∧
          (buildPlaylistGenreProfile env cache pid).1.countP Event.isMembershipFetch = 1 ∧
          (buildPlaylistGenreProfile env cache pid).1.countP Event.isCacheWrite = 1 ∧
          buildPlaylistGenreProfile env (putCachedProfile cache entry) pid
            = ([.snapshotFetch pid, .cacheRead], putCachedProfile cache entry,
                .ok entry.genres)) := by
  constructor
  · intro entry hhit
    simp only [buildPlaylistGenreProfile, hsnap, hhit]
  · intro hmiss tracks db htracks hart
    refine ⟨⟨pid, snapId,
      tt.getD ((uniqueArtistIds tracks).filter (fun i => i ≠ "")).length, env.now,
      ((chunksOf 49 ((uniqueArtistIds tracks).filter (fun i => i ≠ ""))).flatten.flatMap
          db).foldl bump []⟩, rfl, rfl, ?_, ?_, ?_, ?_⟩
    case _ =>
      simp only [buildPlaylistGenreProfile, hsnap, hmiss, htracks,
        fetchGenreCounts_ok env db hart]
    case _ =>
      simp only [buildPlaylistGenreProfile, hsnap, hmiss, htracks,
        fetchGenreCounts_ok env db hart]
      rw [List.countP_append, List.countP_append]
      have hmap : ((chunksOf 49
          ((uniqueArtistIds tracks).filter (fun i => i ≠ ""))).map
          (fun b => Event.artistsFetch b)).countP Event.isMembershipFetch = 0 := by
        rw [List.countP_eq_zero]
        intro e he
        rw [List.mem_map] at he
        obtain ⟨b, _, hbe⟩ := he
        rw [← hbe]
        simp [Event.isMembershipFetch]
      rw [hmap]
      simp [List.countP_cons, Event.isMembershipFetch, List.countP_nil]
    case _ =>
      simp only [buildPlaylistGenreProfile, hsnap, hmiss, htracks,
        fetchGenreCounts_ok env db hart]
      rw [List.countP_append, List.countP_append]
      have hmap : ((chunksOf 49
          ((uniqueArtistIds tracks).filter (fun i => i ≠ ""))).map
          (fun b => Event.artistsFetch b)).countP Event.isCacheWrite = 0 := by
        rw [List.countP_eq_zero]
        intro e he
        rw [List.mem_map] at he
        obtain ⟨b, _, hbe⟩ := he
        rw [← hbe]
        simp [Event.isCacheWrite]
      rw [hmap]
      simp [List.countP_cons, Event.isCacheWrite, List.countP_nil]
    case _ =>
      have hall : ∀ p ∈ cache,
          ¬((p.playlistId == pid && p.snapshotId == snapId) = true) := by
        rw [getCachedProfile, List.find?_eq_none] at hmiss
        exact hmiss
      have hhit2 : getCachedProfile
          (putCachedProfile cache
            ⟨pid, snapId,
              tt.getD ((uniqueArtistIds tracks).filter (fun i => i ≠ "")).length,
              env.now,
              ((chunksOf 49
                  ((uniqueArtistIds tracks).filter (fun i => i ≠ ""))).flatten.flatMap
                  db).foldl bump []⟩)
          pid snapId = some
            ⟨pid, snapId,
              tt.getD ((uniqueArtistIds tracks).filter (fun i => i ≠ "")).length,
              env.now,
              ((chunksOf 49
                  ((uniqueArtistIds tracks).filter (fun i => i ≠ ""))).flatten.flatMap
                  db).foldl bump []⟩ :=
        getCached_putCached _ cache hall
      simp only [buildPlaylistGenreProfile, hsnap, hhit2]

/-- The artist-tag database of the C1 witness. -/
def dbW : String → List String :=
  fun i => if i = "a1" then ["rock"] else ["rock", "pop"]

/-- The two-track playlist of the C1 witness; both tracks carry artist
a1. -/
def tracksC1 : List Track :=
  [⟨"x1", "T1", [⟨"a1"⟩]⟩, ⟨"x2", "T2", [⟨"a1"⟩, ⟨"a2"⟩]⟩]

/-- The concrete environment of the C1 witness. -/
def envC1 : Env :=
  { baseEnv with
    snapshot := fun _ => .ok ("v1", some 2),
    playlistTracks := fun _ => .ok tracksC1,
    severalArtists := fun b => .ok (b.map (fun i => ⟨i, dbW i⟩)) }

/-- Witness for C1 at a concrete input. -/
theorem buildProfile_weights_distinct_artists_witness :
    ∃ prof, (buildPlaylistGenreProfile envC1 [] "P").2.2 = .ok prof ∧
      (uniqueArtistIds tracksC1).Nodup ∧
      (∀ y, y ∈ uniqueArtistIds tracksC1
          ↔ ∃ t ∈ tracksC1, ∃ ar ∈ t.artists, ar.id = y) ∧
      (∀ g, (assocGet prof g).getD 0
          = (uniqueArtistIds tracksC1).countP (fun i => decide (g ∈ dbW i))) :=
  buildProfile_weights_distinct_artists envC1 [] "P" "v1" (some 2) tracksC1 dbW
    rfl rfl rfl (fun _ => rfl)
    (by decide)
    (fun i => by
      by_cases h : i = "a1" <;> simp [dbW, h])

/-- Witness for C3 at a concrete input: an empty cache misses and
rebuilds once; the cache write it makes turns the next call into a pure
hit. -/
theorem buildProfile_cache_hit_and_miss_witness :
    ∃ entry, entry.playlistId = "P" ∧ entry.snapshotId = "v1" ∧
      buildPlaylistGenreProfile envC1 [] "P"
        = ([.snapshotFetch "P", .cacheRead, .membershipFetch "P"]
            ++ (chunksOf 49
                ((uniqueArtistIds tracksC1).filter (fun i => i ≠ ""))).map
                (fun b => Event.artistsFetch b)
            ++ [.cacheWrite entry],
          putCachedProfile [] entry, .ok entry.genres) ∧
      (buildPlaylistGenreProfile envC1 [] "P").1.countP Event.isMembershipFetch = 1 ∧
      (buildPlaylistGenreProfile envC1 [] "P").1.countP Event.isCacheWrite = 1 ∧
      buildPlaylistGenreProfile envC1 (putCachedProfile [] entry) "P"
        = ([.snapshotFetch "P", .cacheRead], putCachedProfile [] entry,
            .ok entry.genres) :=
  (buildProfile_cache_hit_and_miss envC1 [] "P" "v1" (some 2) rfl).2
    rfl tracksC1 dbW rfl (fun _ => rfl)

/-- The first-run branch of the orchestrator body: absent watermark means
one state write initializing it to now, nothing else. -/
theorem runFromState_firstRun (env : Env) (s : SyncState)
    (h : s.lastProcessedAddedAt = none) :
    runFromState env s
      = ⟨[.stateWrite ⟨some env.now, some (s.lastProfileRebuildTime.getD [])⟩], [],
          .ok ⟨some env.now, some (s.lastProfileRebuildTime.getD [])⟩⟩ := by
  simp only [runFromState, h]

/-- C5: on a first-ever run (watermark absent from the loaded state) the
orchestrator sets the watermark to the current time, persists the state
and stops: the whole trace is the state read followed by that one state
write — zero tracks are streamed or routed, zero playlist writes. -/
theorem firstRun_baseline (env : Env)
    (h : (readState env).lastProcessedAddedAt = none) :
    runMain env
      = ⟨[.stateRead, .stateWrite
            ⟨some env.now, some ((readState env).lastProfileRebuildTime.getD [])⟩],
          [],
          .ok ⟨some env.now,
            some ((readState env).lastProfileRebuildTime.getD [])⟩⟩ := by
  have hr := runFromState_firstRun env (readState env) h
  simp only [runMain, hr]

/-- Witness for C5 at a concrete input. -/
theorem firstRun_baseline_witness :
    runMain { baseEnv with now := 777 }
      = ⟨[.stateRead, .stateWrite ⟨some 777, some []⟩], [],
          .ok ⟨some 777, some []⟩⟩ :=
  firstRun_baseline { baseEnv with now := 777 } rfl

/-- C10: `readState` never throws: every read or parse failure — absence
or a corrupt file alike — yields the empty default state.  A corrupted
state file therefore silently discards the watermark and the next run
takes the first-run path (resetting the watermark to now, routing
nothing) instead of reporting an error. -/
theorem readState_failure_takes_first_run (env : Env) (err : String)
    (h : env.stateFile = .error err) :
    readState env = ⟨none, none⟩ ∧
    runMain env
      = ⟨[.stateRead, .stateWrite ⟨some env.now, some []⟩], [],
          .ok ⟨some env.now, some []⟩⟩ := by
  have h1 : readState env = ⟨none, none⟩ := by rw [readState, h]
  refine ⟨h1, ?_⟩
  have hr := runFromState_firstRun env (readState env) (by rw [h1])
  rw [h1] at hr
  simp only [runMain, h1, hr, Option.getD_none]

/-- Witness for C10 at a concrete input: an unparseable state file. -/
theorem readState_failure_takes_first_run_witness :
    readState { baseEnv with stateFile := .error "corrupt json" } = ⟨none, none⟩ ∧
    runMain { baseEnv with stateFile := .error "corrupt json" }
      = ⟨[.stateRead, .stateWrite ⟨some 1000, some []⟩], [],
          .ok ⟨some 1000, some []⟩⟩ :=
  readState_failure_takes_first_run
    { baseEnv with stateFile := .error "corrupt json" } "corrupt json" rfl

/-- The concrete environment refuting C4 as stated: a watermark is
present and no target playlist resolves. -/
def envC4 : Env := { baseEnv with stateFile := .ok ⟨some 100, some []⟩ }

/-- C4 counterexample: with a present watermark and no resolvable target
playlists the run does abort with the configuration error, but its trace
already contains the state read — `readState` runs before the target
check in `main` — so the claim that no state read precedes the
configuration error is false on the code. -/
theorem configError_preceded_by_state_read :
    (runMain envC4).outcome = .error configErrorMsg ∧
    (runMain envC4).trace = [.stateRead] ∧
    Event.stateRead ∈ (runMain envC4).trace := by
  refine ⟨rfl, rfl, ?_⟩
  rw [show (runMain envC4).trace = [.stateRead] from rfl]
  exact List.mem_singleton.mpr rfl

/-- C4 amended: if no target playlists are resolvable and the loaded
state has a watermark, the run fails fatally with the configuration
error after the initial state read but before any catalog I/O and before
any state write (the whole trace is the single state read). -/
theorem configError_before_catalog_io (env : Env) (w : Ts)
    (hw : (readState env).lastProcessedAddedAt = some w)
    (ht : env.targets = []) :
    (runMain env).outcome = .error configErrorMsg ∧
    (runMain env).trace = [.stateRead] := by
  have hr : runFromState env (readState env) = ⟨[], [], .error configErrorMsg⟩ := by
    simp only [runFromState, hw, ht, List.isEmpty_nil, if_pos]
  constructor <;> simp only [runMain, hr]

/-- Witness for the amended C4 at a concrete input. -/
theorem configError_before_catalog_io_witness :
    (runMain { envC4 with now := 555 }).outcome = .error configErrorMsg ∧
    (runMain { envC4 with now := 555 }).trace = [.stateRead] :=
  configError_before_catalog_io { envC4 with now := 555 } 100 rfl rfl

section NoWriteLemmas

/-- No state write occurs among the given events. -/
def NoStateWrite (evs : List Event) : Prop :=
  ∀ s : SyncState, Event.stateWrite s ∉ evs

/-- The empty trace writes no state. -/
theorem noStateWrite_nil : NoStateWrite [] := fun _ => List.not_mem_nil _

/-- The genre-count fetch loop never writes state. -/
theorem fetchGenreCounts_noStateWrite (env : Env) :
    ∀ (bs : List (List String)) (m : GenreProfile),
      NoStateWrite (fetchGenreCounts env bs m).1 := by
  intro bs
  induction bs with
  | nil => intro m; exact noStateWrite_nil
  | cons b rest ih =>
    intro m
    cases ha : env.severalArtists b with
    | error e =>
      simp only [fetchGenreCounts, ha]
      intro s hsmem
      simp at hsmem
    | ok arts =>
      rcases hx : fetchGenreCounts env rest
          (arts.foldl (fun c a => a.genres.foldl bump c) m) with ⟨evs, r⟩
      have hevs := ih (arts.foldl (fun c a => a.genres.foldl bump c) m)
      rw [hx] at hevs
      simp only [fetchGenreCounts, ha, hx]
      intro s hsmem
      simp at hsmem
      exact hevs s hsmem

/-- The profile builder never writes state. -/
theorem buildProfile_noStateWrite (env : Env) (cache : List CachedProfile)
    (pid : String) : NoStateWrite (buildPlaylistGenreProfile env cache pid).1 := by
  cases hs : env.snapshot pid with
  | error e =>
    simp only [buildPlaylistGenreProfile, hs]
    intro s hsmem
    simp at hsmem
  | ok snap =>
    cases hc : getCachedProfile cache pid snap.1 with
    | some entry =>
      simp only [buildPlaylistGenreProfile, hs, hc]
      intro s hsmem
      simp at hsmem
    | none =>
      cases ht : env.playlistTracks pid with
      | error e =>
        simp only [buildPlaylistGenreProfile, hs, hc, ht]
        intro s hsmem
        simp at hsmem
      | ok tracks =>
        rcases hf : fetchGenreCounts env
            (chunksOf 49 ((uniqueArtistIds tracks).filter (fun i => i ≠ ""))) []
          with ⟨evs, r⟩
        have hevs := fetchGenreCounts_noStateWrite env
          (chunksOf 49 ((uniqueArtistIds tracks).filter (fun i => i ≠ ""))) []
        rw [hf] at hevs
        cases r with
        | error e =>
          simp only [buildPlaylistGenreProfile, hs, hc, ht, hf]
          intro s hsmem
          simp at hsmem
          exact hevs s hsmem
        | ok counts =>
          simp only [buildPlaylistGenreProfile, hs, hc, ht, hf]
          intro s hsmem
          simp at hsmem
          exact hevs s hsmem

/-- The rebuilding phase never writes state. -/
theorem rebuildPhase_noStateWrite (env : Env) (prior : List (String × Ts)) :
    ∀ (targets : List String) (cache : List CachedProfile)
      (rebuilds : List (String × Ts)),
      NoStateWrite (rebuildPhase env prior targets cache rebuilds).1 := by
  intro targets
  induction targets with
  | nil => intro cache rebuilds; exact noStateWrite_nil
  | cons pid rest ih =>
    intro cache rebuilds
    rcases hb : buildPlaylistGenreProfile env cache pid with ⟨bevs, cache1, res⟩
    have hbevs := buildProfile_noStateWrite env cache pid
    rw [hb] at hbevs
    cases res with
    | error e =>
      simp only [rebuildPhase, hb]
      exact hbevs
    | ok prof =>
      rcases hr : rebuildPhase env prior rest cache1
          (if shouldRebuildProfile env (assocGet prior pid)
            then assocSet rebuilds pid env.now else rebuilds)
        with ⟨evs, cache2, rebuilds2, res2⟩
      have hevs := ih cache1
        (if shouldRebuildProfile env (assocGet prior pid)
          then assocSet rebuilds pid env.now else rebuilds)
      rw [hr] at hevs
      cases res2 with
      | error e =>
        simp only [rebuildPhase, hb, hr]
        intro s hsmem
        simp at hsmem
        rcases hsmem with h | h
        · exact hbevs s h
        · exact hevs s h
      | ok profs =>
        simp only [rebuildPhase, hb, hr]
        intro s hsmem
        simp at hsmem
        rcases hsmem with h | h
        · exact hbevs s h
        · exact hevs s h

/-- The per-track genre-set collection never writes state. -/
theorem collectGenres_noStateWrite (env : Env) :
    ∀ (bs : List (List String)) (acc : List String),
      NoStateWrite (collectGenres env bs acc).1 := by
  intro bs
  induction bs with
  | nil => intro acc; exact noStateWrite_nil
  | cons b rest ih =>
    intro acc
    cases ha : env.severalArtists b with
    | error e =>
      simp only [collectGenres, ha]
      intro s hsmem
      simp at hsmem
    | ok arts =>
      rcases hx : collectGenres env rest
          (arts.foldl (fun s a => a.genres.foldl setInsert s) acc) with ⟨evs, r⟩
      have hevs := ih (arts.foldl (fun s a => a.genres.foldl setInsert s) acc)
      rw [hx] at hevs
      simp only [collectGenres, ha, hx]
      intro s hsmem
      simp at hsmem
      exact hevs s hsmem

/-- Routing a track never writes state. -/
theorem routeTrack_noStateWrite (env : Env) (targets : List String)
    (profiles : List (String × GenreProfile)) (t : Track) :
    NoStateWrite (routeTrack env targets profiles t).1 := by
  rcases hg : collectGenres env
      (chunksOf 49 ((t.artists.map (fun a => a.id)).filter (fun i => i ≠ ""))) []
    with ⟨evs, r⟩
  have hevs := collectGenres_noStateWrite env
    (chunksOf 49 ((t.artists.map (fun a => a.id)).filter (fun i => i ≠ ""))) []
  rw [hg] at hevs
  cases r with
  | error e =>
    simp only [routeTrack, hg]
    exact hevs
  | ok gs =>
    cases hp : pickBestPlaylist gs profiles with
    | some best =>
      simp only [routeTrack, hg, hp]
      exact hevs
    | none =>
      simp only [routeTrack, hg, hp]
      exact hevs

/-- The streaming loop never writes state. -/
theorem streamPhase_noStateWrite (env : Env) (w : Ts) (targets : List String)
    (profiles : List (String × GenreProfile)) :
    ∀ (items : List SavedItem) (newest : Option Ts)
      (groups : List (String × List String)) (decisions : List RoutingDecision),
      NoStateWrite (streamPhase env w targets profiles items newest groups decisions).1 := by
  intro items
  induction items with
  | nil => intro newest groups decisions; exact noStateWrite_nil
  | cons item rest ih =>
    intro newest groups decisions
    by_cases hcut : item.added_at ≤ w
    · simp only [streamPhase, if_pos hcut]
      exact noStateWrite_nil
    · rcases hr : routeTrack env targets profiles item.track with ⟨evs, r⟩
      have hevs := routeTrack_noStateWrite env targets profiles item.track
      rw [hr] at hevs
      cases r with
      | error e =>
        simp only [streamPhase, if_neg hcut, hr]
        exact hevs
      | ok best =>
        rcases hs2 : streamPhase env w targets profiles rest
            (bumpNewest newest item.added_at)
            (groupAppend groups best item.track.id)
            (decisions ++ [⟨item.track.id, item.added_at, best⟩])
          with ⟨evs2, newest2, groups2, decisions2, r2⟩
        have h2 := ih (bumpNewest newest item.added_at)
          (groupAppend groups best item.track.id)
          (decisions ++ [⟨item.track.id, item.added_at, best⟩])
        rw [hs2] at h2
        simp only [streamPhase, if_neg hcut, hr, hs2]
        intro s hsmem
        simp at hsmem
        rcases hsmem with h | h
        · exact hevs s h
        · exact h2 s h

/-- The batch-append loop never writes state. -/
theorem addBatches_noStateWrite (env : Env) (pid : String) :
    ∀ bs : List (List String), NoStateWrite (addBatches env pid bs).1 := by
  intro bs
  induction bs with
  | nil => exact noStateWrite_nil
  | cons b rest ih =>
    cases ha : env.addTracks pid b with
    | error e =>
      simp only [addBatches, ha]
      intro s hsmem
      simp at hsmem
    | ok u =>
      rcases hx : addBatches env pid rest with ⟨evs, r⟩
      rw [hx] at ih
      simp only [addBatches, ha, hx]
      intro s hsmem
      simp at hsmem
      exact ih s hsmem

/-- The conditional playlist insertion never writes state. -/
theorem addIfMissing_noStateWrite (env : Env) (pid : String)
    (trackIds : List String) :
    NoStateWrite (addTracksToPlaylistIfMissing env pid trackIds).1 := by
  cases hm : env.playlistTracks pid with
  | error e =>
    simp only [addTracksToPlaylistIfMissing, hm]
    intro s hsmem
    simp at hsmem
  | ok tracks =>
    by_cases he : (trackIds.filter
        (fun tid => decide (tid ∉ playlistTrackIds tracks))).isEmpty
    · simp only [addTracksToPlaylistIfMissing, hm, if_pos he]
      intro s hsmem
      simp at hsmem
    · rcases hb : addBatches env pid
          (chunksOf 99 (trackIds.filter
            (fun tid => decide (tid ∉ playlistTrackIds tracks)))) with ⟨evs, r⟩
      have hevs := addBatches_noStateWrite env pid
        (chunksOf 99 (trackIds.filter
          (fun tid => decide (tid ∉ playlistTrackIds tracks))))
      rw [hb] at hevs
      cases r with
      | error e =>
        simp only [addTracksToPlaylistIfMissing, hm, if_neg he, hb]
        intro s hsmem
        simp at hsmem
        exact hevs s hsmem
      | ok res =>
        simp only [addTracksToPlaylistIfMissing, hm, if_neg he, hb]
        intro s hsmem
        simp at hsmem
        exact hevs s hsmem

/-- The writing phase never writes sync state (it only appends to
playlists). -/
theorem writePhase_noStateWrite (env : Env) :
    ∀ groups : List (String × List String),
      NoStateWrite (writePhase env groups).1 := by
  intro groups
  induction groups with
  | nil => exact noStateWrite_nil
  | cons g rest ih =>
    rcases g with ⟨pid, ids⟩
    by_cases he : ids.isEmpty
    · simp only [writePhase, if_pos he]
      exact ih
    · rcases ha : addTracksToPlaylistIfMissing env pid ids with ⟨evs, r⟩
      have hevs := addIfMissing_noStateWrite env pid ids
      rw [ha] at hevs
      cases r with
      | error e =>
        simp only [writePhase, if_neg he, ha]
        exact hevs
      | ok res =>
        rcases hw : writePhase env rest with ⟨evs2, r2⟩
        rw [hw] at ih
        simp only [writePhase, if_neg he, ha, hw]
        intro s hsmem
        simp at hsmem
        rcases hsmem with h | h
        · exact hevs s h
        · exact ih s h

end NoWriteLemmas

/-- C6: a run that aborts with an error — during profile rebuilding,
streaming, routing or playlist writing — performs no state write at all:
the persisted sync state is exactly what it was at the start of the run,
with no partial watermark or rebuild-timestamp advancement (the
incremental path reaches `writeState` only after all phases succeed). -/
theorem failed_run_writes_no_state (env : Env) (e : String)
    (h : (runMain env).outcome = .error e) :
    ∀ s : SyncState, Event.stateWrite s ∉ (runMain env).trace := by
  have hbody : (runFromState env (readState env)).outcome = .error e →
      NoStateWrite (runFromState env (readState env)).trace := by
    intro herr
    cases hw : (readState env).lastProcessedAddedAt with
    | none =>
      rw [runFromState_firstRun env (readState env) hw] at herr
      exact absurd herr (by simp)
    | some w =>
      by_cases ht : env.targets.isEmpty
      · have hcfg : runFromState env (readState env)
            = ⟨[], [], .error configErrorMsg⟩ := by
          simp only [runFromState, hw, ht, if_pos]
        rw [hcfg]
        exact noStateWrite_nil
      · rcases h1 : rebuildPhase env ((readState env).lastProfileRebuildTime.getD [])
            env.targets env.cacheFile ((readState env).lastProfileRebuildTime.getD [])
          with ⟨evs1, cache1, rebuilds, res1⟩
        have hevs1 := rebuildPhase_noStateWrite env
          ((readState env).lastProfileRebuildTime.getD []) env.targets env.cacheFile
          ((readState env).lastProfileRebuildTime.getD [])
        rw [h1] at hevs1
        cases res1 with
        | error e1 =>
          simp only [runFromState, hw, if_neg ht, h1]
          exact hevs1
        | ok profiles =>
          rcases h2 : streamPhase env w env.targets profiles env.savedTracks
              (some w) [] [] with ⟨evs2, newest, groups, decisions, res2⟩
          have hevs2 := streamPhase_noStateWrite env w env.targets profiles
            env.savedTracks (some w) [] []
          rw [h2] at hevs2
          cases res2 with
          | error e2 =>
            simp only [runFromState, hw, if_neg ht, h1, h2]
            intro s hsmem
            simp at hsmem
            rcases hsmem with hx | hx
            · exact hevs1 s hx
            · exact hevs2 s hx
          | ok u =>
            rcases h3 : writePhase env groups with ⟨evs3, res3⟩
            have hevs3 := writePhase_noStateWrite env groups
            rw [h3] at hevs3
            cases res3 with
            | error e3 =>
              simp only [runFromState, hw, if_neg ht, h1, h2, h3]
              intro s hsmem
              simp at hsmem
              rcases hsmem with hx | hx | hx
              · exact hevs1 s hx
              · exact hevs2 s hx
              · exact hevs3 s hx
            | ok u2 =>
              simp only [runFromState, hw, if_neg ht, h1, h2, h3] at herr
              exact absurd herr (by simp)
  have hout : (runFromState env (readState env)).outcome = .error e := by
    simpa only [runMain] using h
  have hns := hbody hout
  intro s hmem
  simp only [runMain, List.mem_cons] at hmem
  rcases hmem with hmem | hmem
  · exact nomatch hmem
  · exact hns s hmem

section WatermarkLemmas

/-- The newest-seen update never loses ground. -/
theorem bumpNewest_ge (newest : Option Ts) (t w : Ts) (h : newest = some w) :
    ∃ n2, bumpNewest newest t = some n2 ∧ w ≤ n2 := by
  subst h
  by_cases hlt : w < t
  · exact ⟨t, by simp [bumpNewest, hlt], le_of_lt hlt⟩
  · exact ⟨w, by simp [bumpNewest, hlt], le_rfl⟩

/-- Starting from a known newest-seen value, the streaming loop returns a
newest-seen value at least as large. -/
theorem streamPhase_newest_mono (env : Env) (w : Ts) (targets : List String)
    (profiles : List (String × GenreProfile)) :
    ∀ (items : List SavedItem) (n : Ts) (groups : List (String × List String))
      (decisions : List RoutingDecision),
      ∃ n2, (streamPhase env w targets profiles items (some n) groups decisions).2.1
          = some n2 ∧ n ≤ n2 := by
  intro items
  induction items with
  | nil => intro n groups decisions; exact ⟨n, rfl, le_rfl⟩
  | cons item rest ih =>
    intro n groups decisions
    obtain ⟨n1, hb, hn1⟩ := bumpNewest_ge (some n) item.added_at n rfl
    by_cases hcut : item.added_at ≤ w
    · refine ⟨n1, ?_, hn1⟩
      simp only [streamPhase, if_pos hcut, hb]
    · rcases hr : routeTrack env targets profiles item.track with ⟨evs, r⟩
      cases r with
      | error e =>
        refine ⟨n1, ?_, hn1⟩
        simp only [streamPhase, if_neg hcut, hr, hb]
      | ok best =>
        obtain ⟨n2, hres, hn2⟩ := ih n1 (groupAppend groups best item.track.id)
          (decisions ++ [⟨item.track.id, item.added_at, best⟩])
        rcases hs2 : streamPhase env w targets profiles rest (some n1)
            (groupAppend groups best item.track.id)
            (decisions ++ [⟨item.track.id, item.added_at, best⟩])
          with ⟨evs2, n2t, g2, d2, r2⟩
        rw [hs2] at hres
        refine ⟨n2, ?_, le_trans hn1 hn2⟩
        simp only [streamPhase, if_neg hcut, hr, hb, hs2]
        exact hres

/-- Every decision the streaming loop adds is for a track strictly newer
than the watermark. -/
theorem streamPhase_routed_gt (env : Env) (w : Ts) (targets : List String)
    (profiles : List (String × GenreProfile)) :
    ∀ (items : List SavedItem) (newest : Option Ts)
      (groups : List (String × List String)) (decisions : List RoutingDecision),
      (∀ d ∈ decisions, w < d.likedAt) →
      ∀ d ∈ (streamPhase env w targets profiles items newest groups decisions).2.2.2.1,
        w < d.likedAt := by
  intro items
  induction items with
  | nil => intro newest groups decisions hdec; exact hdec
  | cons item rest ih =>
    intro newest groups decisions hdec
    by_cases hcut : item.added_at ≤ w
    · simp only [streamPhase, if_pos hcut]
      exact hdec
    · rcases hr : routeTrack env targets profiles item.track with ⟨evs, r⟩
      cases r with
      | error e =>
        simp only [streamPhase, if_neg hcut, hr]
        exact hdec
      | ok best =>
        rcases hs2 : streamPhase env w targets profiles rest
            (bumpNewest newest item.added_at)
            (groupAppend groups best item.track.id)
            (decisions ++ [⟨item.track.id, item.added_at, best⟩])
          with ⟨evs2, n2, g2, d2, r2⟩
        have hdec1 : ∀ d ∈ decisions ++ [(⟨item.track.id, item.added_at, best⟩ : RoutingDecision)],
            w < d.likedAt := by
          intro d hd
          rw [List.mem_append] at hd
          rcases hd with hd | hd
          · exact hdec d hd
          · rw [List.mem_singleton] at hd
            subst hd
            exact not_le.mp hcut
        have hrec := ih (bumpNewest newest item.added_at)
          (groupAppend groups best item.track.id)
          (decisions ++ [⟨item.track.id, item.added_at, best⟩]) hdec1
        rw [hs2] at hrec
        simp only [streamPhase, if_neg hcut, hr, hs2]
        exact hrec

/-- A successful run persists a state whose watermark is present and at
least the loaded one. -/
theorem runFromState_ok_watermark (env : Env) (s : SyncState) (s2 : SyncState)
    (h : (runFromState env s).outcome = .ok s2) :
    ∃ v, s2.lastProcessedAddedAt = some v ∧
      ∀ w, s.lastProcessedAddedAt = some w → w ≤ v := by
  cases hw : s.lastProcessedAddedAt with
  | none =>
    rw [runFromState_firstRun env s hw] at h
    simp only [Except.ok.injEq] at h
    subst h
    refine ⟨env.now, rfl, ?_⟩
    intro w hww
    exact absurd hww (by simp)
  | some w0 =>
    by_cases ht : env.targets.isEmpty
    · simp only [runFromState, hw, ht, if_pos] at h
      exact absurd h (by simp)
    · rcases h1 : rebuildPhase env (s.lastProfileRebuildTime.getD []) env.targets
          env.cacheFile (s.lastProfileRebuildTime.getD [])
        with ⟨evs1, cache1, rebuilds, res1⟩
      cases res1 with
      | error e1 =>
        simp only [runFromState, hw, if_neg ht, h1] at h
        exact absurd h (by simp)
      | ok profiles =>
        rcases h2 : streamPhase env w0 env.targets profiles env.savedTracks
            (some w0) [] [] with ⟨evs2, newest, groups, decisions, res2⟩
        cases res2 with
        | error e2 =>
          simp only [runFromState, hw, if_neg ht, h1, h2] at h
          exact absurd h (by simp)
        | ok u =>
          rcases h3 : writePhase env groups with ⟨evs3, res3⟩
          cases res3 with
          | error e3 =>
            simp only [runFromState, hw, if_neg ht, h1, h2, h3] at h
            exact absurd h (by simp)
          | ok u2 =>
            obtain ⟨n2, hn2, hle⟩ := streamPhase_newest_mono env w0 env.targets
              profiles env.savedTracks w0 [] []
            rw [h2] at hn2
            simp only at hn2
            subst hn2
            simp only [runFromState, hw, if_neg ht, h1, h2, h3] at h
            by_cases hadv : w0 < n2
            · rw [if_pos hadv] at h
              simp only [Except.ok.injEq] at h
              subst h
              refine ⟨n2, rfl, ?_⟩
              intro w hww
              have hw0 : w0 = w := by simpa using hww
              subst hw0
              exact le_of_lt hadv
            · rw [if_neg hadv] at h
              simp only [Except.ok.injEq] at h
              subst h
              refine ⟨w0, rfl, ?_⟩
              intro w hww
              have hw0 : w0 = w := by simpa using hww
              subst hw0
              exact le_rfl

/-- Every routing decision of a run is for a track strictly newer than
the watermark the run started from. -/
theorem runFromState_routed_gt (env : Env) (s : SyncState) (w : Ts)
    (hw : s.lastProcessedAddedAt = some w) :
    ∀ d ∈ (runFromState env s).routed, w < d.likedAt := by
  by_cases ht : env.targets.isEmpty
  · have : runFromState env s = ⟨[], [], .error configErrorMsg⟩ := by
      simp only [runFromState, hw, ht, if_pos]
    rw [this]
    intro d hd
    exact absurd hd (List.not_mem_nil d)
  · rcases h1 : rebuildPhase env (s.lastProfileRebuildTime.getD []) env.targets
        env.cacheFile (s.lastProfileRebuildTime.getD [])
      with ⟨evs1, cache1, rebuilds, res1⟩
    cases res1 with
    | error e1 =>
      simp only [runFromState, hw, if_neg ht, h1]
      intro d hd
      exact absurd hd (List.not_mem_nil d)
    | ok profiles =>
      have hstream := streamPhase_routed_gt env w env.targets profiles
        env.savedTracks (some w) [] [] (by intro d hd; exact absurd hd (List.not_mem_nil d))
      rcases h2 : streamPhase env w env.targets profiles env.savedTracks
          (some w) [] [] with ⟨evs2, newest, groups, decisions, res2⟩
      rw [h2] at hstream
      cases res2 with
      | error e2 =>
        simp only [runFromState, hw, if_neg ht, h1, h2]
        exact hstream
      | ok u =>
        rcases h3 : writePhase env groups with ⟨evs3, res3⟩
        cases res3 with
        | error e3 =>
          simp only [runFromState, hw, if_neg ht, h1, h2, h3]
          exact hstream
        | ok u2 =>
          simp only [runFromState, hw, if_neg ht, h1, h2, h3]
          exact hstream

/-- The first entry of a chain starts from the initial state. -/
theorem chainStates_head (s : SyncState) (envs : List Env)
    (l : List (SyncState × RunResult)) (h : chainStates s envs = some l) :
    ∀ hl : 0 < l.length, (l.get ⟨0, hl⟩).1 = s := by
  cases envs with
  | nil =>
    simp only [chainStates, Option.some.injEq] at h
    subst h
    intro hl
    exact absurd hl (by simp)
  | cons env rest =>
    cases ho : (runFromState env s).outcome with
    | error e =>
      simp only [chainStates, ho] at h
      exact absurd h (by simp)
    | ok s2 =>
      simp only [chainStates, ho] at h
      cases hct : chainStates s2 rest with
      | none =>
        rw [hct] at h
        simp at h
      | some tail =>
        rw [hct] at h
        simp at h
        subst h
        intro hl
        rfl

end WatermarkLemmas

/-- Across a chain of successful runs the start watermarks never
decrease, each run routes only tracks strictly newer than the run start
watermark, even viewed from any earlier run of the chain. -/
theorem chain_watermark_mono (envs : List Env) :
    ∀ (s0 : SyncState) (entries : List (SyncState × RunResult)),
    chainStates s0 envs = some entries →
    ∀ i j : Nat, i ≤ j → ∀ (hi : i < entries.length) (hj : j < entries.length),
      ∀ wi wj, (entries.get ⟨i, hi⟩).1.lastProcessedAddedAt = some wi →
        (entries.get ⟨j, hj⟩).1.lastProcessedAddedAt = some wj →
        wi ≤ wj ∧ ∀ d ∈ (entries.get ⟨j, hj⟩).2.routed, wi < d.likedAt := by
  induction envs with
  | nil =>
    intro s0 entries hchain i j hij hi hj
    simp only [chainStates, Option.some.injEq] at hchain
    subst hchain
    exact absurd hi (by simp)
  | cons env rest ih =>
    intro s0 entries hchain i j hij hi hj wi wj hwi hwj
    cases ho : (runFromState env s0).outcome with
    | error e =>
      simp only [chainStates, ho] at hchain
      exact absurd hchain (by simp)
    | ok s2 =>
      simp only [chainStates, ho] at hchain
      cases hct : chainStates s2 rest with
      | none =>
        rw [hct] at hchain
        simp at hchain
      | some tail =>
        rw [hct] at hchain
        simp at hchain
        subst hchain
        cases i with
        | zero =>
          cases j with
          | zero =>
            have hwi0 : s0.lastProcessedAddedAt = some wi := hwi
            have hwj0 : s0.lastProcessedAddedAt = some wj := hwj
            rw [hwi0] at hwj0
            have hij2 : wi = wj := by
              simpa using hwj0
            subst hij2
            exact ⟨le_rfl, runFromState_routed_gt env s0 wi hwi0⟩
          | succ j2 =>
            have hj2 : j2 < tail.length := by
              simpa using hj
            obtain ⟨v, hv, hge⟩ := runFromState_ok_watermark env s0 s2 ho
            have hwi0 : s0.lastProcessedAddedAt = some wi := hwi
            have hle1 : wi ≤ v := hge wi hwi0
            have h0lt : 0 < tail.length := Nat.lt_of_le_of_lt (Nat.zero_le _) hj2
            have hhead := chainStates_head s2 rest tail hct h0lt
            have hrec := ih s2 tail hct 0 j2 (Nat.zero_le _) h0lt hj2 v wj
              (by rw [hhead]; exact hv) hwj
            refine ⟨le_trans hle1 hrec.1, ?_⟩
            intro d hd
            exact lt_of_le_of_lt hle1 (hrec.2 d hd)
        | succ i2 =>
          cases j with
          | zero => exact absurd hij (by omega)
          | succ j2 =>
            have hi2 : i2 < tail.length := by simpa using hi
            have hj2 : j2 < tail.length := by simpa using hj
            exact ih s2 tail hct i2 j2 (by omega) hi2 hj2 wi wj hwi hwj

/-- Across a chain of successful runs, each run persists a watermark at
least as large as the one it started from. -/
theorem chain_persist_advance (envs : List Env) :
    ∀ (s0 : SyncState) (entries : List (SyncState × RunResult)),
    chainStates s0 envs = some entries →
    ∀ k (hk : k < entries.length) (wk : Ts) (s2 : SyncState),
      (entries.get ⟨k, hk⟩).1.lastProcessedAddedAt = some wk →
      (entries.get ⟨k, hk⟩).2.outcome = .ok s2 →
      ∃ v, s2.lastProcessedAddedAt = some v ∧ wk ≤ v := by
  induction envs with
  | nil =>
    intro s0 entries hchain k hk
    simp only [chainStates, Option.some.injEq] at hchain
    subst hchain
    exact absurd hk (by simp)
  | cons env rest ih =>
    intro s0 entries hchain k hk wk s2 hwk hok
    cases ho : (runFromState env s0).outcome with
    | error e =>
      simp only [chainStates, ho] at hchain
      exact absurd hchain (by simp)
    | ok s1 =>
      simp only [chainStates, ho] at hchain
      cases hct : chainStates s1 rest with
      | none =>
        rw [hct] at hchain
        simp at hchain
      | some tail =>
        rw [hct] at hchain
        simp at hchain
        subst hchain
        cases k with
        | zero =>
          obtain ⟨v, hv, hge⟩ := runFromState_ok_watermark env s0 s2 hok
          exact ⟨v, hv, hge wk hwk⟩
        | succ k2 =>
          have hk2 : k2 < tail.length := by simpa using hk
          exact ih s1 tail hct k2 hk2 wk s2 hwk hok

/-- C2: across every chain of successful orchestrator runs the persisted
watermark is monotonically non-decreasing (each successful run persists a
watermark at least the one it loaded, and the start watermarks never
decrease along the chain), and no liked track whose liked-at time is at
most the watermark at the start of a run is ever routed in that run or in
any later run: every routed track of a later run is strictly newer than
every earlier start watermark. -/
theorem watermark_monotone_no_reroute (envs : List Env) (s0 : SyncState)
    (entries : List (SyncState × RunResult))
    (hchain : chainStates s0 envs = some entries) :
    (∀ k (hk : k < entries.length) (wk : Ts) (s2 : SyncState),
      (entries.get ⟨k, hk⟩).1.lastProcessedAddedAt = some wk →
      (entries.get ⟨k, hk⟩).2.outcome = .ok s2 →
      ∃ v, s2.lastProcessedAddedAt = some v ∧ wk ≤ v) ∧
    (∀ i j : Nat, i ≤ j → ∀ (hi : i < entries.length) (hj : j < entries.length),
      ∀ wi wj, (entries.get ⟨i, hi⟩).1.lastProcessedAddedAt = some wi →
        (entries.get ⟨j, hj⟩).1.lastProcessedAddedAt = some wj →
        wi ≤ wj ∧ ∀ d ∈ (entries.get ⟨j, hj⟩).2.routed, wi < d.likedAt) :=
  ⟨chain_persist_advance envs s0 entries hchain,
    chain_watermark_mono envs s0 entries hchain⟩

/-- The initial state of the C2 witness: watermark 10. -/
def s0W : SyncState := ⟨some 10, some []⟩

/-- The successful-run environment of the C2 witness: one target playlist
with a cached profile, one new liked track at time 20, and a working
catalog. -/
def envW : Env :=
  { baseEnv with
    stateFile := .ok s0W,
    cacheFile := [⟨"P", "v", 1, 0, [("rock", 1)]⟩],
    targets := ["P"],
    snapshot := fun _ => .ok ("v", some 1),
    playlistTracks := fun _ => .ok [],
    severalArtists := fun b => .ok (b.map (fun i => ⟨i, ["rock"]⟩)),
    savedTracks := [⟨20, ⟨"t1", "T1", [⟨"a1"⟩]⟩⟩],
    addTracks := fun _ _ => .ok () }

/-- Witness for C2 at a concrete input: one successful run from watermark
10, with its routed track strictly newer than 10. -/
theorem watermark_monotone_no_reroute_witness :
    10 ≤ 10 ∧ ∀ d ∈ (([(s0W, runFromState envW s0W)].get
        ⟨0, by simp⟩).2).routed, 10 < d.likedAt := by
  have h := watermark_monotone_no_reroute [envW] s0W
    [(s0W, runFromState envW s0W)] rfl
  exact h.2 0 0 le_rfl (by simp) (by simp) 10 10 rfl rfl

/-- The concrete failing environment of the C6 witness: the catalog is
unreachable, so profile rebuilding aborts the incremental run. -/
def envC6 : Env :=
  { baseEnv with stateFile := .ok ⟨some 100, some []⟩, targets := ["P"] }

/-- Witness for C6 at a concrete input. -/
theorem failed_run_writes_no_state_witness :
    (runMain envC6).outcome = .error "offline" ∧
    ∀ s : SyncState, Event.stateWrite s ∉ (runMain envC6).trace :=
  ⟨rfl, failed_run_writes_no_state envC6 "offline" rfl⟩

/-- Witness for C9 at a concrete input: playlist membership contains the
id a, adding the list a, b inserts b only, and a repeat call adds 0 and
skips both. -/
theorem addTracksIfMissing_idempotent_witness :
    addTracksIfMissingOn (addTracksIfMissingOn ["a"] ["a", "b"]).2 ["a", "b"]
        = (⟨0, 2⟩, (addTracksIfMissingOn ["a"] ["a", "b"]).2) ∧
    (addTracksToPlaylistIfMissing
          { baseEnv with
            playlistTracks := fun _ => .ok [⟨"a", "A", []⟩],
            addTracks := fun _ _ => .ok () } "P" ["a", "b"]).2
        = .ok (addTracksIfMissingOn (playlistTrackIds [⟨"a", "A", []⟩]) ["a", "b"]).1 := by
  have h := addTracksIfMissing_idempotent ["a"] ["a", "b"]
    { baseEnv with
      playlistTracks := fun _ => .ok [⟨"a", "A", []⟩],
      addTracks := fun _ _ => .ok () } "P" [⟨"a", "A", []⟩] rfl (fun _ => rfl)
  exact ⟨h.2.2.2.1, h.2.2.2.2⟩

end LikedSync
